import Mathlib

/-!
Verification of the hackthechat note-assistant core: the tiered search and
ranking engine (`src/services/notion.ts`), the tag-correction parsing and
tag-suggestion aggregation (`src/services/intentClassifier.ts`), and the
conversation-context handling and error boundaries of the dialogue
orchestrator (`src/handlers/messageHandler.ts`).

The TypeScript source is shallowly embedded: strings are Lean `String`s
(lists of characters; JavaScript case folding is modelled with ASCII case
folding, which agrees with the source on every string the code manipulates),
numbers are `Nat` (all scores in the source are non-negative integers),
`Array.prototype.sort` — stable since ES2019 — is modelled by a stable
insertion sort, and JavaScript regular expressions are modelled by a small
backtracking matcher covering exactly the constructs the four correction
patterns use (case-insensitive literals, greedy `.*`, `\s+`, and a trailing
greedy capture `(.+)`, where `.` excludes line terminators).
-/

namespace HTC

/-! ## JavaScript string primitives -/

/-- Code points of the JavaScript `\s` class outside the U+2000-U+200A
range: space, tab, LF, CR, VT, FF, NBSP, OGHAM SPACE, LS, PS, NNBSP, MMSP,
IDEOGRAPHIC SPACE, BOM. -/
def wsCodes : List Nat :=
  [0x20, 0x09, 0x0A, 0x0D, 0x0B, 0x0C, 0xA0, 0x1680,
   0x2028, 0x2029, 0x202F, 0x205F, 0x3000, 0xFEFF]

/-- The JavaScript `\s` character class (whitespace used by `split(/\s+/)`,
`trim()` and the regex patterns). -/
def isWsJS (c : Char) : Bool :=
  wsCodes.contains c.toNat || (0x2000 ≤ c.toNat && c.toNat ≤ 0x200A)

/-- Code points of the JavaScript line terminators: LF, CR, LS, PS. -/
def nlCodes : List Nat := [0x0A, 0x0D, 0x2028, 0x2029]

/-- Characters matched by the regex `.` metacharacter: anything except a
line terminator. -/
def notNl (c : Char) : Bool :=
  !(nlCodes.contains c.toNat)

/-- `toLowerCase()` (ASCII case folding; the accented characters appearing in
the source are already lower case). -/
def lowerStr (s : String) : String :=
  String.mk (s.data.map Char.toLower)

/-- `String.prototype.trim()` on a character list. -/
def jsTrim (l : List Char) : List Char :=
  ((l.dropWhile isWsJS).reverse.dropWhile isWsJS).reverse

/-- `String.prototype.trim()`. -/
def jsTrimS (s : String) : String :=
  String.mk (jsTrim s.data)

/-- `needle` occurs as a contiguous substring of `haystack`
(JavaScript `String.prototype.includes`). `containsSub h []` is `true`,
like `includes("")`. -/
def containsSub (haystack needle : List Char) : Bool :=
  needle.isPrefixOf haystack ||
    match haystack with
    | [] => false
    | _ :: t => containsSub t needle

/-- `h.includes(n)` on strings. -/
def sContains (h n : String) : Bool :=
  containsSub h.data n.data

/-- `String.prototype.split(/\s+/)`: split on maximal whitespace runs,
keeping a leading (resp. trailing) empty piece when the string starts
(resp. ends) with whitespace, and producing `[""]` on the empty string. -/
def splitWs : List Char → List (List Char)
  | [] => [[]]
  | c :: cs =>
    if isWsJS c then
      match cs with
      | c2 :: _ => if isWsJS c2 then splitWs cs else [] :: splitWs cs
      | [] => [] :: splitWs cs
    else
      match splitWs cs with
      | [] => [[c]]
      | t :: ts => (c :: t) :: ts

/-! ## Data model (`NotionQueryResult`, notion.ts lines 23-31) -/

/-- A note record as returned from the store, plus the transient ranking
fields (`relevancia`, `coincidencias`) that the search tiers fill in. -/
structure NotionQueryResult where
  id : String
  titulo : String
  contenido : String
  etiquetas : List String
  fechaCreacion : String
  relevancia : Option Nat
  coincidencias : Option (List String)
deriving DecidableEq, Repr

/-- `note.relevancia || 0` / `note.relevancia!` as used by the sort
comparator and the positivity filter. -/
def relOf (n : NotionQueryResult) : Nat :=
  n.relevancia.getD 0

/-! ## Stable descending sort
`results.sort((a, b) => (b.relevancia || 0) - (a.relevancia || 0))`:
`Array.prototype.sort` is stable (ES2019), and the comparator orders by the
key descending, so the call denotes the unique stable descending sort,
modelled by insertion sort. -/

/-- Insert `x` in front of the first element whose key does not exceed
`key x` (stable descending insertion). -/
def insertDescBy (key : α → Nat) (x : α) : List α → List α
  | [] => [x]
  | y :: ys => if key y ≤ key x then x :: y :: ys else y :: insertDescBy key x ys

/-- Stable sort, descending by `key`. -/
def sortDescBy (key : α → Nat) : List α → List α
  | [] => []
  | x :: xs => insertDescBy key x (sortDescBy key xs)

/-! ## Query normalization (notion.ts lines 202-207) -/

/-- The stop-word list of `performIntelligentSearch`. -/
def stopWords : List String :=
  ["el", "la", "de", "que", "y", "a", "en", "un", "es", "se", "no", "te",
   "lo", "le", "da", "su", "por", "son", "con", "para", "las", "del", "los"]

/-- `query.toLowerCase().trim()`. -/
def normalizeQuery (query : String) : String :=
  jsTrimS (lowerStr query)

/-- The raw pieces of `queryLower.split(/\s+/)`, before filtering. -/
def rawTokens (query : String) : List String :=
  (splitWs (normalizeQuery query).data).map (fun l => String.mk l)

/-- `queryWords`: tokens longer than 2 characters that are not stop words. -/
def queryTokens (query : String) : List String :=
  (rawTokens query).filter (fun w => 2 < w.length && !(stopWords.contains w))

/-! ## Tier 1: exact matching (`searchExactMatches`, notion.ts lines 245-296) -/

/-- One iteration of the per-word loop of `searchExactMatches` (lines
270-283), accumulating relevance and match reasons. -/
def exactWordStep (tl cl et : String) (acc : Nat × List String) (word : String) :
    Nat × List String :=
  let a1 := if sContains tl word then
      (acc.1 + 15, acc.2 ++ [s!"Título contiene: \"{word}\""]) else acc
  let a2 := if sContains cl word then
      (a1.1 + 12, a1.2 ++ [s!"Contenido contiene: \"{word}\""]) else a1
  if sContains et word then
      (a2.1 + 10, a2.2 ++ [s!"Etiqueta contiene: \"{word}\""]) else a2

/-- The per-note body of `searchExactMatches` (lines 246-291): full-phrase
bonuses +30/+25/+20, then — only when relevance is still 0 — the per-token
+15/+12/+10 loop. -/
def scoreExact (queryLower : String) (queryWords : List String)
    (note : NotionQueryResult) : NotionQueryResult :=
  let tl := lowerStr note.titulo
  let cl := lowerStr note.contenido
  let et := lowerStr (String.intercalate " " note.etiquetas)
  let acc0 : Nat × List String := (0, [])
  let acc1 := if sContains tl queryLower then
      (acc0.1 + 30, acc0.2 ++ [s!"Título contiene exactamente: \"{queryLower}\""]) else acc0
  let acc2 := if sContains cl queryLower then
      (acc1.1 + 25, acc1.2 ++ [s!"Contenido contiene exactamente: \"{queryLower}\""]) else acc1
  let acc3 := if sContains et queryLower then
      (acc2.1 + 20, acc2.2 ++ [s!"Etiqueta contiene exactamente: \"{queryLower}\""]) else acc2
  let acc4 := if acc3.1 = 0 then queryWords.foldl (exactWordStep tl cl et) acc3 else acc3
  { note with
    relevancia := some acc4.1
    coincidencias := if 0 < acc4.2.length then some acc4.2 else none }

/-- The mapped-and-filtered (still unsorted) tier-1 result list. -/
def exactScored (notes : List NotionQueryResult) (queryLower : String)
    (queryWords : List String) : List NotionQueryResult :=
  (notes.map (scoreExact queryLower queryWords)).filter (fun n => 0 < relOf n)

/-- `searchExactMatches`: score, keep positive relevance, stable sort
descending. -/
def searchExactMatches (notes : List NotionQueryResult) (queryLower : String)
    (queryWords : List String) : List NotionQueryResult :=
  sortDescBy relOf (exactScored notes queryLower queryWords)

/-! ## Tier 2: synonym matching (`searchWithSynonyms`, notion.ts lines 299-349) -/

/-- The fixed synonym table (domain term → related terms). -/
def synonyms (w : String) : List String :=
  if w = "arepas" then ["arepa", "venezuelana", "harina", "maiz"]
  else if w = "pasta" then ["espagueti", "linguini", "macarrones", "italiana"]
  else if w = "vino" then ["copa", "botella", "tinto", "blanco"]
  else if w = "video" then ["tutorial", "youtube"]
  else if w = "receta" then ["cocinar", "preparar", "ingredientes"]
  else if w = "evento" then ["actividad", "reunion", "cita", "plan"]
  else if w = "trabajo" then ["oficina", "laboral", "proyecto"]
  else if w = "viaje" then ["turismo", "destino", "vacaciones"]
  else []

/-- The inner loop of `searchWithSynonyms` over one query word's related
terms: +5/+3/+4 for title/body/tags, with a `word → synonym` reason. -/
def synWordStep (tl cl et : String) (acc : Nat × List String) (word : String) :
    Nat × List String :=
  (synonyms word).foldl (fun acc syn =>
    let a1 := if sContains tl syn then
        (acc.1 + 5, acc.2 ++ [s!"Título relacionado ({word} → {syn})"]) else acc
    let a2 := if sContains cl syn then
        (a1.1 + 3, a1.2 ++ [s!"Contenido relacionado ({word} → {syn})"]) else a1
    if sContains et syn then
        (a2.1 + 4, a2.2 ++ [s!"Etiqueta relacionada ({word} → {syn})"]) else a2) acc

/-- Per-note body of `searchWithSynonyms` (lines 312-343). -/
def scoreSynonyms (queryWords : List String) (note : NotionQueryResult) :
    NotionQueryResult :=
  let tl := lowerStr note.titulo
  let cl := lowerStr note.contenido
  let et := lowerStr (String.intercalate " " note.etiquetas)
  let acc := queryWords.foldl (synWordStep tl cl et) ((0 : Nat), ([] : List String))
  { note with
    relevancia := some acc.1
    coincidencias := if 0 < acc.2.length then some acc.2 else none }

/-- Unsorted, positivity-filtered tier-2 list. -/
def synonymScored (notes : List NotionQueryResult) (queryWords : List String) :
    List NotionQueryResult :=
  (notes.map (scoreSynonyms queryWords)).filter (fun n => 0 < relOf n)

/-- `searchWithSynonyms`. -/
def searchWithSynonyms (notes : List NotionQueryResult) (queryWords : List String) :
    List NotionQueryResult :=
  sortDescBy relOf (synonymScored notes queryWords)

/-! ## Tier 3: fuzzy matching (`searchFuzzy`, notion.ts lines 352-378) -/

/-- Per-note body of `searchFuzzy`: +1 for each token longer than 4
characters whose first 4 characters occur in title or body. -/
def scoreFuzzy (queryWords : List String) (note : NotionQueryResult) :
    NotionQueryResult :=
  let acc := queryWords.foldl (fun (acc : Nat × List String) word =>
    if 4 < word.length then
      if sContains (lowerStr note.titulo) (String.mk (word.data.take 4)) ||
         sContains (lowerStr note.contenido) (String.mk (word.data.take 4)) then
        (acc.1 + 1, acc.2 ++ [s!"Coincidencia parcial con: \"{word}\""])
      else acc
    else acc) ((0 : Nat), ([] : List String))
  { note with
    relevancia := some acc.1
    coincidencias := if 0 < acc.2.length then some acc.2 else none }

/-- Unsorted, positivity-filtered tier-3 list. -/
def fuzzyScored (notes : List NotionQueryResult) (queryWords : List String) :
    List NotionQueryResult :=
  (notes.map (scoreFuzzy queryWords)).filter (fun n => 0 < relOf n)

/-- `searchFuzzy`. -/
def searchFuzzy (notes : List NotionQueryResult) (queryWords : List String) :
    List NotionQueryResult :=
  sortDescBy relOf (fuzzyScored notes queryWords)

/-! ## The tier cascade (`performIntelligentSearch`, notion.ts lines 201-242) -/

/-- `performIntelligentSearch`: exact tier first; the synonym tier only when
the exact tier is empty; the fuzzy tier only when both are empty. -/
def performIntelligentSearch (notes : List NotionQueryResult) (query : String) :
    List NotionQueryResult :=
  let queryLower := normalizeQuery query
  let queryWords := queryTokens query
  let exactMatches := searchExactMatches notes queryLower queryWords
  if 0 < exactMatches.length then exactMatches
  else
    let synonymMatches := searchWithSynonyms notes queryWords
    if 0 < synonymMatches.length then synonymMatches
    else searchFuzzy notes queryWords

/-! ## Regex engine for the tag-correction patterns
(`parseTagCorrection`, intentClassifier.ts lines 342-367)

The four patterns use only case-insensitive literals, greedy `.*`, `\s+`,
and a final greedy capture group `(.+)`. `matchSeq` explores alternatives in
exactly the backtracking order of the JavaScript engine (quantifiers try the
longest consumption first); `searchFrom` tries start positions left to
right, as `String.prototype.match` does for an unanchored pattern. -/

/-- A regex atom; every pattern is a list of atoms followed by an implicit
trailing capture group `(.+)`. -/
inductive PAtom where
  | lit (s : List Char)
  | star
  | wsPlus
deriving DecidableEq, Repr

/-- Case-insensitive literal prefix test (the `/i` flag). -/
def isPrefixCI : List Char → List Char → Bool
  | [], _ => true
  | _ :: _, [] => false
  | p :: ps, c :: cs => (c.toLower == p) && isPrefixCI ps cs

/-- The suffixes reachable by letting `.*` consume 0 or more non-terminator
characters, in greedy (most consumed first) order. -/
def starSuffixes : List Char → List (List Char)
  | [] => [[]]
  | c :: cs => if notNl c then starSuffixes cs ++ [c :: cs] else [c :: cs]

/-- The suffixes reachable by letting `\s+` consume further whitespace after
its first mandatory character, in greedy order. -/
def wsSuffixes : List Char → List (List Char)
  | [] => [[]]
  | c :: cs => if isWsJS c then wsSuffixes cs ++ [c :: cs] else [c :: cs]

/-- The trailing greedy `(.+)`: captures the longest nonempty run of
non-terminator characters at the current position. -/
def matchCapture (cs : List Char) : Option (List Char) :=
  let g := cs.takeWhile notNl
  if g.isEmpty then none else some g

/-- Match the atom list at the start of `cs`; on success return what the
trailing `(.+)` captured. Alternatives are explored in the JavaScript
engine's backtracking order. -/
def matchSeq : List PAtom → List Char → Option (List Char)
  | [], cs => matchCapture cs
  | PAtom.lit s :: rest, cs =>
    if isPrefixCI s cs then matchSeq rest (cs.drop s.length) else none
  | PAtom.star :: rest, cs =>
    (starSuffixes cs).findSome? (fun suf => matchSeq rest suf)
  | PAtom.wsPlus :: rest, cs =>
    match cs with
    | [] => none
    | c :: cs' =>
      if isWsJS c then (wsSuffixes cs').findSome? (fun suf => matchSeq rest suf)
      else none

/-- Unanchored search: try each start position left to right, first success
wins (`message.match(pattern)`). -/
def searchFrom (atoms : List PAtom) : List Char → Option (List Char)
  | [] => matchSeq atoms []
  | c :: cs =>
    match matchSeq atoms (c :: cs) with
    | some cap => some cap
    | none => searchFrom atoms cs

/-- `/cambia.*etiqueta.*a\s+(.+)/i`. -/
def regexCambia : List PAtom :=
  [PAtom.lit "cambia".data, PAtom.star, PAtom.lit "etiqueta".data,
   PAtom.star, PAtom.lit "a".data, PAtom.wsPlus]

/-- `/debería ser\s+(.+)/i`. -/
def regexDeberiaSer : List PAtom :=
  [PAtom.lit "debería ser".data, PAtom.wsPlus]

/-- `/etiqueta.*(.+)/i`. -/
def regexEtiqueta : List PAtom :=
  [PAtom.lit "etiqueta".data, PAtom.star]

/-- `/categoría.*(.+)/i`. -/
def regexCategoria : List PAtom :=
  [PAtom.lit "categoría".data, PAtom.star]

/-- The ordered pattern list of `parseTagCorrection`. -/
def correctionPatterns : List (List PAtom) :=
  [regexCambia, regexDeberiaSer, regexEtiqueta, regexCategoria]

/-- `newTagsText.split(/[,y]/)`: split at every `,` or (lower-case) `y`,
keeping empty pieces. -/
def splitCommaY : List Char → List (List Char)
  | [] => [[]]
  | c :: cs =>
    if c == ',' || c == 'y' then [] :: splitCommaY cs
    else
      match splitCommaY cs with
      | [] => [[c]]
      | t :: ts => (c :: t) :: ts

/-- The `TagCorrectionIntent` variant (intentClassifier.ts lines 40-45). -/
structure TagCorrectionIntent where
  noteId : String
  newTags : List String
  originalNote : String
deriving DecidableEq, Repr

/-- `parseTagCorrection(message, noteContext?)`: try the four patterns in
order, first match wins; trim the captured group, split it on `,`/`y`, trim
each piece and drop empty pieces (lines 351-366). `originalNote` is
`noteContext || message` (JavaScript falsiness: an absent or empty hint
falls back to the message). -/
def parseTagCorrection (message : String) (noteContext : Option String) :
    Option TagCorrectionIntent :=
  (correctionPatterns.findSome? (fun p => searchFrom p message.data)).map
    (fun cap =>
      let newTagsText := jsTrim cap
      let newTags :=
        (((splitCommaY newTagsText).map jsTrim).filter
          (fun t => 0 < t.length)).map (fun l => String.mk l)
      { noteId := ""
        newTags := newTags
        originalNote :=
          match noteContext with
          | some s => if s == "" then message else s
          | none => message })

/-! ## Conversation context and the pending-correction branch
(messageHandler.ts lines 10-14 and 103-124) -/

/-- The `lastNote` record stored in the conversation context. -/
structure LastNote where
  id : String
  titulo : String
  etiquetas : List String
deriving DecidableEq, Repr

/-- Per-conversation context (`conversationContext` map entries). -/
structure ConvContext where
  lastNote : Option LastNote
  awaitingTagCorrection : Bool
  lastQuery : Option String
deriving DecidableEq, Repr

/-- The pending-correction branch of `handleIntelligentMessage` (lines
103-124): when `awaitingTagCorrection` is set and a `lastNote` is
remembered, a message recognised by `parseTagCorrection` triggers the store
update (whose outcome is `updateSuccess`) and yields the updated context and
the reply; `none` means the branch does not fire and the turn falls through
to ordinary intent classification. On success the context is cleared; on
failure the source leaves the context untouched and only changes the reply. -/
def tagCorrectionBranch (context : ConvContext) (textContent : String)
    (updateSuccess : Bool) : Option (ConvContext × String) :=
  match context.awaitingTagCorrection, context.lastNote with
  | true, some ln =>
    match parseTagCorrection textContent (some ln.titulo) with
    | some tagCorrection =>
      if updateSuccess then
        let t := ln.titulo
        let ts := String.intercalate ", " tagCorrection.newTags
        some ({ context with awaitingTagCorrection := false, lastNote := none },
              s!"✅ ¡Perfecto! Actualicé las etiquetas de \"{t}\" a: {ts}")
      else
        some (context,
              "Hubo un problema al actualizar las etiquetas. ¿Puedes intentar de nuevo?")
    | none => none
  | _, _ => none

/-! ## Orchestrator error boundaries (messageHandler.ts lines 37-98, 295-301) -/

/-- Transport/store error values. -/
abbrev Err := String

/-- The apology text: the catch block of `handleIntelligentMessage` (line
299) and the emergency reply of `handleMessage` (line 94) use this same
fixed string. -/
def fallbackResponse : String :=
  "Disculpa, tuve un problema procesando tu mensaje. ¿Puedes intentar de nuevo?"

/-- One turn of `handleIntelligentMessage`, abstracted over the body (the
classification/store/search work producing the reply text, which may throw)
and the transport (`beh msg = none` means `sock.sendMessage` delivers
`msg`; `some e` means it throws `e` and delivers nothing). Returns the
messages delivered and the error, if any, escaping the function. The catch
block (lines 295-301) sends `fallbackResponse` with no nested try/catch, so
a failure of that send escapes. -/
def handleIntelligentMessageRun (body : Except Err String)
    (beh : String → Option Err) : List String × Option Err :=
  match body with
  | Except.ok r =>
    match beh r with
    | none => ([r], none)
    | some _ =>
      match beh fallbackResponse with
      | none => ([fallbackResponse], none)
      | some e2 => ([], some e2)
  | Except.error _ =>
    match beh fallbackResponse with
    | none => ([fallbackResponse], none)
    | some e2 => ([], some e2)

/-- One turn of `handleMessage` (lines 37-98): runs
`handleIntelligentMessage` inside its own try/catch; the catch sends the
emergency apology, again with no nested try/catch, so a failing apology
send escapes into the transport's event loop. -/
def handleMessageRun (body : Except Err String) (beh : String → Option Err) :
    List String × Option Err :=
  match handleIntelligentMessageRun body beh with
  | (sent, none) => (sent, none)
  | (sent, some _) =>
    match beh fallbackResponse with
    | none => (sent ++ [fallbackResponse], none)
    | some e => (sent, some e)

/-! ## Tag-suggestion aggregation
(`suggestTagsFromSimilarContent`, intentClassifier.ts lines 153-178) -/

/-- `tagCounts[tag] = (tagCounts[tag] || 0) + 1` on an association list that
keeps first-seen key order (`Object.entries` iterates string keys in
insertion order; tag names are assumed not to be canonical array-index
strings, which JavaScript would reorder first). -/
def bumpTag (acc : List (String × Nat)) (tag : String) : List (String × Nat) :=
  if acc.any (fun p => p.1 == tag) then
    acc.map (fun p => if p.1 == tag then (p.1, p.2 + 1) else p)
  else acc ++ [(tag, 1)]

/-- The `tagCounts` tally over the 5 most relevant similar notes
(`similarNotes.slice(0, 5)`), in first-seen key order. -/
def tagEntries (similarNotes : List NotionQueryResult) : List (String × Nat) :=
  (similarNotes.take 5).foldl
    (fun acc note => note.etiquetas.foldl bumpTag acc) []

/-- The aggregation step of `suggestTagsFromSimilarContent` (lines 159-172),
given the similar notes returned by the store lookup: keep tags counted at
least twice, stable sort by count descending, cap at 3. -/
def suggestTagsFromSimilarContent (similarNotes : List NotionQueryResult) :
    List String :=
  (((sortDescBy (fun p => p.2)
      ((tagEntries similarNotes).filter (fun p => 2 ≤ p.2))).take 3)).map
    (fun p => p.1)

/-! ## Auxiliary definitions used by the statements -/

/-- The unsorted, positivity-filtered scored list of whichever tier
`performIntelligentSearch` ends up returning (the pre-sort list; each tier
scores the candidates in their original order). -/
def searchTierScored (notes : List NotionQueryResult) (query : String) :
    List NotionQueryResult :=
  let queryLower := normalizeQuery query
  let queryWords := queryTokens query
  if 0 < (exactScored notes queryLower queryWords).length then
    exactScored notes queryLower queryWords
  else if 0 < (synonymScored notes queryWords).length then
    synonymScored notes queryWords
  else fuzzyScored notes queryWords

/-- Transcribes the claimed exact-tier full-phrase rule (spec §4.1): +30 for
the title, +25 for the body, +20 for the joined tag list containing the full
normalized query. -/
def claimedPhraseScore (queryLower : String) (note : NotionQueryResult) : Nat :=
  (if sContains (lowerStr note.titulo) queryLower then 30 else 0) +
  (if sContains (lowerStr note.contenido) queryLower then 25 else 0) +
  (if sContains (lowerStr (String.intercalate " " note.etiquetas)) queryLower then 20 else 0)

/-- Transcribes the claimed per-token rule for one token: +15/+12/+10 for
title/body/tags containing the token. -/
def claimedWordScore (tl cl et : String) (word : String) : Nat :=
  (if sContains tl word then 15 else 0) +
  (if sContains cl word then 12 else 0) +
  (if sContains et word then 10 else 0)

/-- Transcribes the claimed per-token rule, additive across tokens. -/
def claimedTokenScore (queryWords : List String) (note : NotionQueryResult) : Nat :=
  (queryWords.map (claimedWordScore (lowerStr note.titulo) (lowerStr note.contenido)
    (lowerStr (String.intercalate " " note.etiquetas)))).sum

/-- The candidate note of spec §8 scenarios A and B. -/
def pastaNote : NotionQueryResult :=
  { id := "p1", titulo := "Pasta italiana", contenido := "pasta con tomate",
    etiquetas := ["Recetas"], fechaCreacion := "2024-01-01",
    relevancia := none, coincidencias := none }

/-- A candidate whose title contains a related term of the synonym-table key
`pasta`, exercising the synonym tier in the direction the table supports. -/
def espaguetiNote : NotionQueryResult :=
  { id := "e1", titulo := "Espagueti boloñesa", contenido := "con tomate",
    etiquetas := ["Recetas"], fechaCreacion := "2024-01-02",
    relevancia := none, coincidencias := none }

/-- A similar note carrying only tags, for the suggestion-aggregation
scenario. -/
def simNote (id : String) (tags : List String) : NotionQueryResult :=
  { id := id, titulo := "", contenido := "", etiquetas := tags,
    fechaCreacion := "", relevancia := none, coincidencias := none }

/-- Five similar notes with tag frequencies A:3, B:2, C:1 (spec §8
suggested-tags scenario). -/
def c8SimilarNotes : List NotionQueryResult :=
  [simNote "1" ["A"], simNote "2" ["A", "C"], simNote "3" ["A", "B"],
   simNote "4" ["B"], simNote "5" []]

/-- A conversation context in the AwaitingCorrection state. -/
def ctxAwaiting : ConvContext :=
  { lastNote := some { id := "note-1", titulo := "Pasta italiana", etiquetas := ["Recetas"] },
    awaitingTagCorrection := true, lastQuery := none }

/-! # Theorems -/

/-! ## Stable descending sort lemmas -/

theorem length_insertDescBy (key : α → Nat) (x : α) (l : List α) :
    (insertDescBy key x l).length = l.length + 1 := by
  induction l with
  | nil => rfl
  | cons y ys ih =>
    unfold insertDescBy
    split
    · simp
    · simpa using ih

theorem length_sortDescBy (key : α → Nat) (l : List α) :
    (sortDescBy key l).length = l.length := by
  induction l with
  | nil => rfl
  | cons x xs ih => simp [sortDescBy, length_insertDescBy, ih]

theorem mem_insertDescBy {key : α → Nat} {x a : α} {l : List α} :
    a ∈ insertDescBy key x l ↔ a = x ∨ a ∈ l := by
  induction l with
  | nil => simp [insertDescBy]
  | cons y ys ih =>
    unfold insertDescBy
    split
    · simp [or_comm, or_left_comm]
    · simp only [List.mem_cons, ih]
      tauto

theorem mem_sortDescBy {key : α → Nat} {a : α} {l : List α} :
    a ∈ sortDescBy key l ↔ a ∈ l := by
  induction l with
  | nil => simp [sortDescBy]
  | cons x xs ih => simp [sortDescBy, mem_insertDescBy, ih]

theorem pairwise_insertDescBy {key : α → Nat} {x : α} {l : List α}
    (h : l.Pairwise (fun a b => key b ≤ key a)) :
    (insertDescBy key x l).Pairwise (fun a b => key b ≤ key a) := by
  induction l with
  | nil => simp [insertDescBy]
  | cons y ys ih =>
    rw [List.pairwise_cons] at h
    unfold insertDescBy
    split
    · rename_i hyx
      rw [List.pairwise_cons]
      refine ⟨?_, List.pairwise_cons.mpr h⟩
      intro z hz
      rcases List.mem_cons.mp hz with rfl | hz
      · exact hyx
      · exact Nat.le_trans (h.1 z hz) hyx
    · rename_i hyx
      rw [List.pairwise_cons]
      refine ⟨?_, ih h.2⟩
      intro z hz
      rcases mem_insertDescBy.mp hz with hz | hz
      · subst hz
        exact Nat.le_of_lt (Nat.lt_of_not_le hyx)
      · exact h.1 z hz

theorem pairwise_sortDescBy (key : α → Nat) (l : List α) :
    (sortDescBy key l).Pairwise (fun a b => key b ≤ key a) := by
  induction l with
  | nil => simp [sortDescBy]
  | cons x xs ih => exact pairwise_insertDescBy ih

theorem filter_insertDescBy_of_eq {key : α → Nat} {x : α} {v : Nat} {l : List α}
    (hx : key x = v) :
    (insertDescBy key x l).filter (fun a => key a == v) =
      x :: l.filter (fun a => key a == v) := by
  induction l with
  | nil => simp [insertDescBy, hx]
  | cons y ys ih =>
    unfold insertDescBy
    split
    · rename_i hyx
      simp [List.filter_cons, hx]
    · rename_i hyx
      have hyv : (key y == v) = false := by
        subst hx
        have : key x < key y := Nat.lt_of_not_le hyx
        simp only [beq_eq_false_iff_ne, ne_eq]
        omega
      simp [List.filter_cons, hyv, ih]

theorem filter_insertDescBy_of_ne {key : α → Nat} {x : α} {v : Nat} {l : List α}
    (hx : key x ≠ v) :
    (insertDescBy key x l).filter (fun a => key a == v) =
      l.filter (fun a => key a == v) := by
  have hxv : (key x == v) = false := by simpa using hx
  induction l with
  | nil => simp [insertDescBy, hxv]
  | cons y ys ih =>
    unfold insertDescBy
    split
    · simp [List.filter_cons, hxv]
    · simp only [List.filter_cons, ih]

theorem filter_sortDescBy (key : α → Nat) (v : Nat) (l : List α) :
    (sortDescBy key l).filter (fun a => key a == v) =
      l.filter (fun a => key a == v) := by
  induction l with
  | nil => rfl
  | cons x xs ih =>
    by_cases hx : key x = v
    · rw [sortDescBy, filter_insertDescBy_of_eq hx, ih, List.filter_cons]
      simp [hx]
    · rw [sortDescBy, filter_insertDescBy_of_ne hx, ih, List.filter_cons]
      simp [hx]

/-! ## The tier cascade, pre-sort characterization -/

theorem performIntelligentSearch_eq_sort (notes : List NotionQueryResult)
    (query : String) :
    performIntelligentSearch notes query =
      sortDescBy relOf (searchTierScored notes query) := by
  unfold performIntelligentSearch searchTierScored searchExactMatches
    searchWithSynonyms searchFuzzy
  simp only [length_sortDescBy]
  split
  · rfl
  · split
    · rfl
    · rfl

/-! ## Exact-tier scoring lemmas -/

theorem exactWordStep_fst (tl cl et : String) (acc : Nat × List String)
    (word : String) :
    (exactWordStep tl cl et acc word).1 = acc.1 + claimedWordScore tl cl et word := by
  unfold exactWordStep claimedWordScore
  cases h1 : sContains tl word <;> cases h2 : sContains cl word <;>
    cases h3 : sContains et word <;> simp [h1, h2, h3]

theorem foldl_exactWordStep_fst (tl cl et : String) :
    ∀ (qw : List String) (acc : Nat × List String),
      (qw.foldl (exactWordStep tl cl et) acc).1 =
        acc.1 + (qw.map (claimedWordScore tl cl et)).sum := by
  intro qw
  induction qw with
  | nil => simp
  | cons w ws ih =>
    intro acc
    rw [List.foldl_cons, ih, exactWordStep_fst, List.map_cons, List.sum_cons]
    omega

theorem relOf_scoreExact (queryLower : String) (queryWords : List String)
    (note : NotionQueryResult) :
    relOf (scoreExact queryLower queryWords note) =
      claimedPhraseScore queryLower note +
        (if claimedPhraseScore queryLower note = 0 then
          claimedTokenScore queryWords note else 0) := by
  unfold scoreExact claimedPhraseScore claimedTokenScore relOf
  cases h1 : sContains (lowerStr note.titulo) queryLower <;>
    cases h2 : sContains (lowerStr note.contenido) queryLower <;>
    cases h3 : sContains (lowerStr (String.intercalate " " note.etiquetas)) queryLower <;>
    simp [h1, h2, h3, foldl_exactWordStep_fst]

theorem relOf_scoreSynonyms_nil (note : NotionQueryResult) :
    relOf (scoreSynonyms [] note) = 0 := rfl

theorem relOf_scoreFuzzy_nil (note : NotionQueryResult) :
    relOf (scoreFuzzy [] note) = 0 := rfl

theorem synonymScored_nil (notes : List NotionQueryResult) :
    synonymScored notes [] = [] := by
  unfold synonymScored
  rw [List.filter_eq_nil_iff]
  intro a ha
  rcases List.mem_map.mp ha with ⟨x, _, rfl⟩
  simp [relOf_scoreSynonyms_nil]

theorem fuzzyScored_nil (notes : List NotionQueryResult) :
    fuzzyScored notes [] = [] := by
  unfold fuzzyScored
  rw [List.filter_eq_nil_iff]
  intro a ha
  rcases List.mem_map.mp ha with ⟨x, _, rfl⟩
  simp [relOf_scoreFuzzy_nil]

/-! ## Substring lemmas -/

theorem containsSub_nil (h : List Char) : containsSub h [] = true := by
  cases h <;> simp [containsSub, List.isPrefixOf]

theorem containsSub_iff (h n : List Char) :
    containsSub h n = true ↔ ∃ s t, h = s ++ n ++ t := by
  induction h with
  | nil =>
    unfold containsSub
    cases n with
    | nil => simp [List.isPrefixOf]
    | cons a as =>
      simp only [List.isPrefixOf, Bool.or_false]
      constructor
      · intro hc
        simp at hc
      · rintro ⟨s, t, hst⟩
        exact absurd hst (by simp)
  | cons a h' ih =>
    unfold containsSub
    rw [Bool.or_eq_true, List.isPrefixOf_iff_prefix, ih]
    constructor
    · rintro (⟨t, ht⟩ | ⟨s, t, rfl⟩)
      · exact ⟨[], t, by simpa using ht.symm⟩
      · exact ⟨a :: s, t, by simp⟩
    · rintro ⟨s, t, hst⟩
      cases s with
      | nil =>
        left
        exact ⟨t, by simpa using hst.symm⟩
      | cons b s' =>
        right
        refine ⟨s', t, ?_⟩
        have h2 := hst
        simp only [List.cons_append, List.cons.injEq] at h2
        exact h2.2

theorem containsSub_of_pre {field q tok : List Char}
    (hq : containsSub field q = true) (hpre : tok <+: q) :
    containsSub field tok = true := by
  rcases (containsSub_iff field q).mp hq with ⟨s, t, rfl⟩
  rcases hpre with ⟨r, rfl⟩
  exact (containsSub_iff _ tok).mpr ⟨s, r ++ t, by simp⟩

/-! ## `split(/\s+/)` head lemma -/

theorem splitWs_head? (cs : List Char) :
    (splitWs cs).head? = some (cs.takeWhile (fun c => !isWsJS c)) := by
  induction cs with
  | nil => rfl
  | cons c cs' ih =>
    cases cs' with
    | nil =>
      by_cases hc : isWsJS c
      · rw [splitWs.eq_3, if_pos hc]
        simp [List.takeWhile_cons, hc]
      · rw [splitWs.eq_3, if_neg hc]
        simp only [splitWs.eq_1]
        simp [List.takeWhile_cons, hc]
    | cons c2 cs'' =>
      by_cases hc : isWsJS c
      · by_cases hc2 : isWsJS c2
        · rw [splitWs.eq_2, if_pos hc, if_pos hc2, ih]
          simp [List.takeWhile_cons, hc, hc2]
        · rw [splitWs.eq_2, if_pos hc, if_neg hc2]
          simp [List.takeWhile_cons, hc]
      · rw [splitWs.eq_2, if_neg hc]
        cases hsp : splitWs (c2 :: cs'') with
        | nil =>
          rw [hsp] at ih
          simp at ih
        | cons t ts =>
          rw [hsp] at ih
          simp only [List.head?_cons, Option.some.injEq] at ih
          simp only [hsp]
          simp [List.takeWhile_cons, hc, ih]

theorem splitWs_head (cs : List Char) :
    ∃ rest, splitWs cs = cs.takeWhile (fun c => !isWsJS c) :: rest := by
  cases hsp : splitWs cs with
  | nil =>
    have h := splitWs_head? cs
    rw [hsp] at h
    simp at h
  | cons t ts =>
    have h := splitWs_head? cs
    rw [hsp] at h
    simp only [List.head?_cons, Option.some.injEq] at h
    exact ⟨ts, by rw [h]⟩

/-! ## Claim theorems -/

/-- C1: for every candidate note set and every query for which the exact
tier produces at least one note with positive relevance,
`performIntelligentSearch` returns exactly the exact-tier result — the
synonym and fuzzy tiers are never consulted and their scores never appear
in the output. -/
theorem c1_tier_ordering (notes : List NotionQueryResult) (query : String)
    (h : searchExactMatches notes (normalizeQuery query) (queryTokens query) ≠ []) :
    performIntelligentSearch notes query =
      searchExactMatches notes (normalizeQuery query) (queryTokens query) := by
  have hp : 0 < (searchExactMatches notes (normalizeQuery query) (queryTokens query)).length :=
    List.length_pos.mpr h
  simp only [performIntelligentSearch]
  rw [if_pos hp]

/-- C1 witness: for the spec's scenario-A candidate and query `"pasta"` the
exact tier is nonempty and the search returns exactly its result. -/
theorem c1_witness :
    searchExactMatches [pastaNote] (normalizeQuery "pasta") (queryTokens "pasta") ≠ [] ∧
    performIntelligentSearch [pastaNote] "pasta" =
      searchExactMatches [pastaNote] (normalizeQuery "pasta") (queryTokens "pasta") :=
  ⟨by decide, c1_tier_ordering [pastaNote] "pasta" (by decide)⟩

/-- C3 counterexample: for the claimed candidate set and query
`"espagueti"`, the synonym tier does not fire at all — the synonym table is
keyed by domain term (`"pasta"`), not by related term, so the whole search
returns the empty list instead of a single note with relevance 5. -/
theorem c3_counterexample :
    performIntelligentSearch [pastaNote] "espagueti" = [] := by decide

/-- C3 amended: for the claimed input the search returns no results, all
three tiers yielding nothing; the synonym tier fires in the direction the
table supports: for a candidate titled "Espagueti boloñesa" and query
`"pasta"`, the exact tier is empty and the synonym tier returns the single
note with relevance 5 and a reason recording the pasta → espagueti
substitution. -/
theorem c3_amended :
    searchExactMatches [espaguetiNote] (normalizeQuery "pasta") (queryTokens "pasta") = [] ∧
    performIntelligentSearch [espaguetiNote] "pasta" =
      [{ espaguetiNote with
          relevancia := some 5,
          coincidencias := some ["Título relacionado (pasta → espagueti)"] }] ∧
    performIntelligentSearch [pastaNote] "espagueti" = [] := by
  refine ⟨by decide, by decide, by decide⟩

/-- C4: in the exact tier, per note, full-phrase containment contributes
+30/+25/+20 for title/body/joined tags, the per-token +15/+12/+10 scores
are added only when the phrase score is 0, and only notes with positive
relevance are kept. -/
theorem c4_exact_scoring :
    (∀ (queryLower : String) (queryWords : List String) (note : NotionQueryResult),
      relOf (scoreExact queryLower queryWords note) =
        claimedPhraseScore queryLower note +
          (if claimedPhraseScore queryLower note = 0 then
            claimedTokenScore queryWords note else 0)) ∧
    (∀ (notes : List NotionQueryResult) (queryLower : String)
        (queryWords : List String) (n : NotionQueryResult),
      n ∈ searchExactMatches notes queryLower queryWords → 0 < relOf n) := by
  refine ⟨relOf_scoreExact, ?_⟩
  intro notes ql qw n hn
  unfold searchExactMatches at hn
  have hm := mem_sortDescBy.mp hn
  have := (List.mem_filter.mp hm).2
  simpa using this

/-- C4 witness: the scenario-A note scored against query `"pasta"` is a
member of the exact-tier result and has positive relevance, and its
relevance decomposes as claimed. -/
theorem c4_witness :
    relOf (scoreExact "pasta" ["pasta"] pastaNote) =
      claimedPhraseScore "pasta" pastaNote +
        (if claimedPhraseScore "pasta" pastaNote = 0 then
          claimedTokenScore ["pasta"] pastaNote else 0) ∧
    0 < relOf (scoreExact "pasta" ["pasta"] pastaNote) :=
  ⟨c4_exact_scoring.1 "pasta" ["pasta"] pastaNote,
   c4_exact_scoring.2 [pastaNote] "pasta" ["pasta"]
     (scoreExact "pasta" ["pasta"] pastaNote) (by decide)⟩

/-- C6: the result of `performIntelligentSearch` is sorted by relevance in
non-increasing order, and the notes of each relevance value appear in their
original candidate order (the sort is stable over the chosen tier's scored
candidate list). -/
theorem c6_sorted_stable (notes : List NotionQueryResult) (query : String) :
    (performIntelligentSearch notes query).Pairwise (fun a b => relOf b ≤ relOf a) ∧
    ∀ v : Nat,
      (performIntelligentSearch notes query).filter (fun n => relOf n == v) =
        (searchTierScored notes query).filter (fun n => relOf n == v) := by
  rw [performIntelligentSearch_eq_sort]
  exact ⟨pairwise_sortDescBy relOf _, fun v => filter_sortDescBy relOf v _⟩

/-- C7: `parseTagCorrection` tries its four patterns in order with first
match winning and splits/trims the captured group; in particular the
claimed example yields `["Recetas", "Ideas"]` and a non-correction message
yields no match. -/
theorem c7_correction_parsing :
    parseTagCorrection "cambia la etiqueta a Recetas, Ideas" none =
      some { noteId := "", newTags := ["Recetas", "Ideas"],
             originalNote := "cambia la etiqueta a Recetas, Ideas" } ∧
    parseTagCorrection "no entiendo" none = none := by
  refine ⟨by decide, by decide⟩

/-- C2 counterexample: in the AwaitingCorrection state, when the store
update fails, the context is left with `awaitingTagCorrection` still `true`
and `lastNote` still remembered — the conversation does not transition back
to Idle as claimed. -/
theorem c2_counterexample :
    (tagCorrectionBranch ctxAwaiting "cambia la etiqueta a Ideas" false).map
      (fun r => (r.1.awaitingTagCorrection, r.1.lastNote)) =
      some (true,
        some { id := "note-1", titulo := "Pasta italiana", etiquetas := ["Recetas"] }) := by
  decide

/-- C2 amended: in the AwaitingCorrection state a recognised correction
transitions back to Idle (`awaitingTagCorrection` cleared, `lastNote`
cleared) only when the store's tag update succeeds; on failure the context
is left unchanged — still awaiting — and only the retry-prompt reply is
produced. -/
theorem c2_amended (context : ConvContext) (ln : LastNote) (textContent : String)
    (tc : TagCorrectionIntent)
    (hA : context.awaitingTagCorrection = true)
    (hN : context.lastNote = some ln)
    (hP : parseTagCorrection textContent (some ln.titulo) = some tc) :
    (∃ reply, tagCorrectionBranch context textContent true =
        some ({ context with awaitingTagCorrection := false, lastNote := none }, reply)) ∧
    tagCorrectionBranch context textContent false =
      some (context,
        "Hubo un problema al actualizar las etiquetas. ¿Puedes intentar de nuevo?") := by
  simp only [tagCorrectionBranch, hA, hN, hP]
  exact ⟨⟨_, rfl⟩, rfl⟩

/-- C2 witness: the amended behaviour at a concrete awaiting context and a
concrete recognised correction message. -/
theorem c2_witness :
    (∃ reply, tagCorrectionBranch ctxAwaiting "cambia la etiqueta a Ideas" true =
        some ({ ctxAwaiting with awaitingTagCorrection := false, lastNote := none }, reply)) ∧
    tagCorrectionBranch ctxAwaiting "cambia la etiqueta a Ideas" false =
      some (ctxAwaiting,
        "Hubo un problema al actualizar las etiquetas. ¿Puedes intentar de nuevo?") :=
  c2_amended ctxAwaiting
    { id := "note-1", titulo := "Pasta italiana", etiquetas := ["Recetas"] }
    "cambia la etiqueta a Ideas"
    { noteId := "", newTags := ["Ideas"], originalNote := "Pasta italiana" }
    rfl rfl (by decide)

/-- C8: tag-suggestion enrichment only depends on the first 5 similar
notes, returns at most 3 tags, every returned tag is counted at least
twice in the tally, and for frequencies A:3, B:2, C:1 the output is
`["A", "B"]` in descending-frequency order. -/
theorem c8_suggested_tags :
    (∀ notes, suggestTagsFromSimilarContent notes =
        suggestTagsFromSimilarContent (notes.take 5)) ∧
    (∀ notes, (suggestTagsFromSimilarContent notes).length ≤ 3) ∧
    (∀ notes t, t ∈ suggestTagsFromSimilarContent notes →
        ∃ c, (t, c) ∈ tagEntries notes ∧ 2 ≤ c) ∧
    suggestTagsFromSimilarContent c8SimilarNotes = ["A", "B"] := by
  refine ⟨?_, ?_, ?_, by decide⟩
  · intro notes
    simp [suggestTagsFromSimilarContent, tagEntries, List.take_take]
  · intro notes
    unfold suggestTagsFromSimilarContent
    simp only [List.length_map]
    exact List.length_take_le 3 _
  · intro notes t ht
    unfold suggestTagsFromSimilarContent at ht
    rcases List.mem_map.mp ht with ⟨p, hp, rfl⟩
    have h1 : p ∈ sortDescBy (fun p => p.2)
        ((tagEntries notes).filter (fun p => 2 ≤ p.2)) :=
      List.mem_of_mem_take hp
    have h3 := List.mem_filter.mp (mem_sortDescBy.mp h1)
    refine ⟨p.2, ?_, by simpa using h3.2⟩
    simpa using h3.1

/-- C8 witness: tag `"A"` is returned for the concrete frequency scenario
and indeed appears with count at least 2 in the tally. -/
theorem c8_witness :
    ∃ c, ("A", c) ∈ tagEntries c8SimilarNotes ∧ 2 ≤ c :=
  c8_suggested_tags.2.2.1 c8SimilarNotes "A" (by decide)

/-- C9 counterexample: with a failing turn body and a transport whose send
always throws, the error raised while sending the apology escapes
`handleMessage` into the messaging transport layer instead of being
swallowed. -/
theorem c9_counterexample :
    handleMessageRun (Except.error "classification failed")
      (fun _ => some "transport send failed") =
      ([], some "transport send failed") := rfl

/-- C9 amended: every error raised by the turn body is caught at the
orchestrator boundary and, whenever the transport can deliver the fixed
apology, converted into that apology with no error escaping; but a failure
while sending the apology itself is not swallowed — any error escaping
`handleMessage` is exactly the transport's failure to send the apology
text. -/
theorem c9_amended :
    (∀ (body : Except Err String) (beh : String → Option Err),
        beh fallbackResponse = none → (handleMessageRun body beh).2 = none) ∧
    (∀ (e : Err) (beh : String → Option Err), beh fallbackResponse = none →
        handleMessageRun (Except.error e) beh = ([fallbackResponse], none)) ∧
    (∀ (body : Except Err String) (beh : String → Option Err) (e : Err),
        (handleMessageRun body beh).2 = some e → beh fallbackResponse = some e) := by
  refine ⟨?_, ?_, ?_⟩
  · intro body beh hfb
    cases body with
    | ok r =>
      cases hr : beh r with
      | none => simp [handleMessageRun, handleIntelligentMessageRun, hr]
      | some e1 => simp [handleMessageRun, handleIntelligentMessageRun, hr, hfb]
    | error e0 => simp [handleMessageRun, handleIntelligentMessageRun, hfb]
  · intro e beh hfb
    simp [handleMessageRun, handleIntelligentMessageRun, hfb]
  · intro body beh e h
    cases body with
    | ok r =>
      cases hr : beh r with
      | none => simp [handleMessageRun, handleIntelligentMessageRun, hr] at h
      | some e1 =>
        cases hfb : beh fallbackResponse with
        | none => simp [handleMessageRun, handleIntelligentMessageRun, hr, hfb] at h
        | some e2 =>
          simp [handleMessageRun, handleIntelligentMessageRun, hr, hfb] at h
          rw [h]
    | error e0 =>
      cases hfb : beh fallbackResponse with
      | none => simp [handleMessageRun, handleIntelligentMessageRun, hfb] at h
      | some e2 =>
        simp [handleMessageRun, handleIntelligentMessageRun, hfb] at h
        rw [h]

/-- C9 witness: a failing turn body with a healthy transport yields exactly
the delivered apology and no escaping error. -/
theorem c9_witness :
    handleMessageRun (Except.error "store down") (fun _ => (none : Option Err)) =
      ([fallbackResponse], none) :=
  c9_amended.2.1 "store down" (fun _ => none) rfl

/-- C5 counterexample: an empty query does not yield the empty sequence —
the empty string is a substring of every field, so every candidate fires
all three full-phrase checks of the exact tier (+30+25+20 = 75) and is
returned. -/
theorem c5_counterexample :
    performIntelligentSearch [pastaNote] "" ≠ [] ∧
    (performIntelligentSearch [pastaNote] "").map relOf = [75] :=
  ⟨by decide, by decide⟩

/-- C5 amended: the engine never fails — an empty candidate set yields the
empty sequence for every query; an empty query, rather than yielding the
empty sequence, matches every candidate in the exact tier with relevance
75 via the empty-substring phrase checks; and a query whose every token is
dropped by the stop-word/length filter, none of whose raw tokens occurs as
a substring of any note's lower-cased title, body, or joined tag list,
yields the empty sequence across all three tiers. -/
theorem c5_amended :
    (∀ query, performIntelligentSearch [] query = []) ∧
    (∀ notes n, n ∈ performIntelligentSearch notes "" → relOf n = 75) ∧
    (∀ notes query, queryTokens query = [] →
      (∀ x ∈ notes, ∀ w ∈ rawTokens query,
        sContains (lowerStr x.titulo) w = false ∧
        sContains (lowerStr x.contenido) w = false ∧
        sContains (lowerStr (String.intercalate " " x.etiquetas)) w = false) →
      performIntelligentSearch notes query = []) := by
  refine ⟨?_, ?_, ?_⟩
  · intro query
    rw [performIntelligentSearch_eq_sort]
    simp [searchTierScored, exactScored, synonymScored, fuzzyScored, sortDescBy]
  · intro notes n hn
    rw [performIntelligentSearch_eq_sort] at hn
    have hn2 := mem_sortDescBy.mp hn
    simp only [searchTierScored, show normalizeQuery "" = "" from rfl,
      show queryTokens "" = [] from rfl, synonymScored_nil, fuzzyScored_nil,
      List.length_nil, Nat.lt_irrefl, if_false] at hn2
    have hall : ∀ s : String, sContains s "" = true :=
      fun s => containsSub_nil s.data
    split at hn2
    · rcases List.mem_map.mp (List.mem_filter.mp hn2).1 with ⟨x, _, rfl⟩
      rw [relOf_scoreExact]
      simp [claimedPhraseScore, hall]
    · simp at hn2
  · intro notes query h1 h2
    rw [performIntelligentSearch_eq_sort]
    suffices hts : searchTierScored notes query = [] by rw [hts]; rfl
    obtain ⟨rest, hsp⟩ := splitWs_head (normalizeQuery query).data
    have htokmem :
        String.mk ((normalizeQuery query).data.takeWhile (fun c => !isWsJS c)) ∈
          rawTokens query := by
      unfold rawTokens
      rw [hsp]
      exact List.mem_cons_self _ _
    have hpre : (normalizeQuery query).data.takeWhile (fun c => !isWsJS c) <+:
        (normalizeQuery query).data := List.takeWhile_prefix _
    have he : exactScored notes (normalizeQuery query) [] = [] := by
      unfold exactScored
      rw [List.filter_eq_nil_iff]
      intro a ha
      rcases List.mem_map.mp ha with ⟨x, hx, rfl⟩
      have hx2 := h2 x hx _ htokmem
      have key : ∀ field : String,
          sContains field
            (String.mk ((normalizeQuery query).data.takeWhile (fun c => !isWsJS c))) = false →
          sContains field (normalizeQuery query) = false := by
        intro field hf
        cases hb : sContains field (normalizeQuery query) with
        | false => rfl
        | true =>
          have hcs : containsSub field.data (normalizeQuery query).data = true := hb
          have htok : containsSub field.data
              ((normalizeQuery query).data.takeWhile (fun c => !isWsJS c)) = true :=
            containsSub_of_pre hcs hpre
          have : sContains field
              (String.mk ((normalizeQuery query).data.takeWhile (fun c => !isWsJS c))) = true :=
            htok
          rw [this] at hf
          simp at hf
      have hphrase : claimedPhraseScore (normalizeQuery query) x = 0 := by
        unfold claimedPhraseScore
        rw [key _ hx2.1, key _ hx2.2.1, key _ hx2.2.2]
        rfl
      have h0 : relOf (scoreExact (normalizeQuery query) [] x) = 0 := by
        rw [relOf_scoreExact, hphrase]
        simp [claimedTokenScore]
      simp [h0]
    simp only [searchTierScored, h1, he, synonymScored_nil, fuzzyScored_nil]
    simp

/-- C5 witness: the amended behaviour at concrete inputs — an empty
candidate set, the empty-query relevance-75 member, and the stop-word query
`"el de la"` against the scenario-A candidate. -/
theorem c5_witness :
    performIntelligentSearch ([] : List NotionQueryResult) "pasta" = [] ∧
    relOf (scoreExact "" [] pastaNote) = 75 ∧
    performIntelligentSearch [pastaNote] "el de la" = [] :=
  ⟨c5_amended.1 "pasta",
   c5_amended.2.1 [pastaNote] (scoreExact "" [] pastaNote) (by decide),
   c5_amended.2.2 [pastaNote] "el de la" (by decide) (by decide)⟩

/-! ## Regex-engine lemmas for the greedy `lit .* (.+)` patterns -/

theorem getLast?_drop_of_ne_nil {α : Type} {l : List α} {k : Nat}
    (h : l.drop k ≠ []) : (l.drop k).getLast? = l.getLast? := by
  conv_rhs => rw [← List.take_append_drop k l]
  rw [List.getLast?_append]
  cases hd : (l.drop k).getLast? with
  | none => exact absurd (List.getLast?_eq_none_iff.mp hd) h
  | some y => rfl

theorem matchSeq_star_nlfree :
    ∀ (cs : List Char), (∀ c ∈ cs, notNl c = true) →
      matchSeq [PAtom.star] cs = cs.getLast?.map (fun c => [c]) := by
  intro cs
  induction cs with
  | nil => intro _; rfl
  | cons c cs' ih =>
    intro hfree
    have hc : notNl c = true := hfree c (List.mem_cons_self c cs')
    have hfree' : ∀ x ∈ cs', notNl x = true :=
      fun x hx => hfree x (List.mem_cons_of_mem c hx)
    rw [show matchSeq [PAtom.star] (c :: cs') =
        (starSuffixes (c :: cs')).findSome? (fun suf => matchSeq [] suf) from rfl]
    rw [show starSuffixes (c :: cs') = starSuffixes cs' ++ [c :: cs'] by
      simp only [starSuffixes]; rw [if_pos hc]]
    rw [List.findSome?_append]
    have ihres : (starSuffixes cs').findSome? (fun suf => matchSeq [] suf) =
        cs'.getLast?.map (fun c => [c]) := ih hfree'
    rw [ihres]
    cases cs' with
    | nil =>
      simp [matchSeq, List.findSome?_cons, matchCapture, List.takeWhile_cons, hc]
    | cons c2 cs'' =>
      obtain ⟨y, hy⟩ : ∃ y, (c2 :: cs'').getLast? = some y := by
        cases hg : (c2 :: cs'').getLast? with
        | none => simp at hg
        | some y => exact ⟨y, rfl⟩
      rw [List.getLast?_cons_cons, hy]
      rfl

theorem searchFrom_lit_star (L : List Char) (hL : L ≠ []) :
    ∀ (cs : List Char), (∀ c ∈ cs, notNl c = true) → ∀ cap,
      searchFrom [PAtom.lit L, PAtom.star] cs = some cap →
      ∃ c, cs.getLast? = some c ∧ cap = [c] := by
  intro cs
  induction cs with
  | nil =>
    intro _ cap hcap
    have hpl : isPrefixCI L [] = false := by
      cases L with
      | nil => exact absurd rfl hL
      | cons a as => rfl
    rw [show searchFrom [PAtom.lit L, PAtom.star] [] =
        matchSeq [PAtom.lit L, PAtom.star] [] from rfl] at hcap
    rw [show matchSeq [PAtom.lit L, PAtom.star] [] =
        (if isPrefixCI L [] = true then
          matchSeq [PAtom.star] (([] : List Char).drop L.length) else none) from rfl,
      hpl] at hcap
    simp at hcap
  | cons c cs' ih =>
    intro hfree cap hcap
    have hfree' : ∀ x ∈ cs', notNl x = true :=
      fun x hx => hfree x (List.mem_cons_of_mem c hx)
    rw [show searchFrom [PAtom.lit L, PAtom.star] (c :: cs') =
        (match matchSeq [PAtom.lit L, PAtom.star] (c :: cs') with
         | some r => some r
         | none => searchFrom [PAtom.lit L, PAtom.star] cs') from rfl] at hcap
    cases hm : matchSeq [PAtom.lit L, PAtom.star] (c :: cs') with
    | none =>
      rw [hm] at hcap
      rcases ih hfree' cap hcap with ⟨c0, h1, h2⟩
      refine ⟨c0, ?_, h2⟩
      cases hcs : cs' with
      | nil =>
        rw [hcs] at h1
        simp at h1
      | cons a l =>
        rw [hcs] at h1
        rw [List.getLast?_cons_cons]
        exact h1
    | some cap' =>
      rw [hm] at hcap
      have hcc : cap' = cap := by
        simpa using hcap
      subst hcc
      rw [show matchSeq [PAtom.lit L, PAtom.star] (c :: cs') =
          (if isPrefixCI L (c :: cs') = true then
            matchSeq [PAtom.star] ((c :: cs').drop L.length) else none) from rfl] at hm
      cases hp : isPrefixCI L (c :: cs') with
      | false =>
        rw [hp] at hm
        simp at hm
      | true =>
        rw [hp, if_pos rfl] at hm
        have hdfree : ∀ x ∈ (c :: cs').drop L.length, notNl x = true :=
          fun x hx => hfree x (List.mem_of_mem_drop hx)
        rw [matchSeq_star_nlfree _ hdfree] at hm
        cases hd : ((c :: cs').drop L.length).getLast? with
        | none =>
          rw [hd] at hm
          simp at hm
        | some y =>
          rw [hd] at hm
          have hdne : (c :: cs').drop L.length ≠ [] := by
            intro h0
            rw [h0] at hd
            simp at hd
          have hlast := getLast?_drop_of_ne_nil (l := c :: cs') (k := L.length) hdne
          refine ⟨y, ?_, ?_⟩
          · rw [← hlast, hd]
          · simpa using hm.symm

/-- C10 counterexample: the capture is not always the final character of
the message — for the two-line message `"etiqueta x\ny"` neither of the
first two patterns matches, the third pattern matches with capture `"x"`
(the greedy `.*` and the capture cannot cross the line terminator), yet the
final character of the message is `'y'`. -/
theorem c10_counterexample :
    searchFrom regexCambia "etiqueta x\ny".data = none ∧
    searchFrom regexDeberiaSer "etiqueta x\ny".data = none ∧
    searchFrom regexEtiqueta "etiqueta x\ny".data = some ['x'] ∧
    "etiqueta x\ny".data.getLast? = some 'y' ∧
    (parseTagCorrection "etiqueta x\ny" none).map (fun i => i.newTags) = some ["x"] := by
  refine ⟨by decide, by decide, by decide, by decide, by decide⟩

/-- C10 amended: for every message without line terminators, whenever the
third pattern `/etiqueta.*(.+)/i` matches, its greedy leading `.*` makes
the captured group exactly the final character of the message (and the
fourth pattern `/categoría.*(.+)/i` behaves the same way); in particular
`parseTagCorrection "etiqueta Recetas"` yields `newTags = ["s"]`, not
`["Recetas"]`, and likewise for `"categoría Recetas"`. On a message with
line terminators the capture is instead the last character of the matched
line, as shown by the counterexample. -/
theorem c10_amended :
    (∀ (m : String) cap, (∀ c ∈ m.data, notNl c = true) →
      searchFrom regexEtiqueta m.data = some cap →
      ∃ c, m.data.getLast? = some c ∧ cap = [c]) ∧
    (∀ (m : String) cap, (∀ c ∈ m.data, notNl c = true) →
      searchFrom regexCategoria m.data = some cap →
      ∃ c, m.data.getLast? = some c ∧ cap = [c]) ∧
    (parseTagCorrection "etiqueta Recetas" none).map (fun i => i.newTags) =
      some ["s"] ∧
    (parseTagCorrection "categoría Recetas" none).map (fun i => i.newTags) =
      some ["s"] := by
  refine ⟨?_, ?_, by decide, by decide⟩
  · intro m cap hfree hmatch
    exact searchFrom_lit_star "etiqueta".data (by decide) m.data hfree cap hmatch
  · intro m cap hfree hmatch
    exact searchFrom_lit_star "categoría".data (by decide) m.data hfree cap hmatch

/-- C10 witness: the general single-line statement applied to the concrete
message `"etiqueta Recetas"`, whose match captures exactly its final
character `'s'`. -/
theorem c10_witness :
    ∃ c, "etiqueta Recetas".data.getLast? = some c ∧ ['s'] = [c] :=
  c10_amended.1 "etiqueta Recetas" ['s'] (by decide) (by decide)

end HTC
